import Mathlib

/-!
Verification of the task-queue / pipeline / integrity-audit core of the
youtube-to-tiktok converter.  The definitions below are shallow embeddings of
the Python sources: `src/validation/integrity_validator.py` (hash-chain
validation, keyed signatures), `src/worker.py` (queue lease, task status
updates, the worker pipeline), `src/web/app.py` (process state machine,
cancellation) and `src/logging/audit.py` (audit trail).  SHA-256 digests and
JSON serialization are abstracted as function parameters; every control-flow
decision of the embedded functions follows the source line by line.
-/

/-- JSON-like values, standing for the Python data passed to
`generate_data_hash` and `create_integrity_signature`. -/
inductive JsonValue where
  | null : JsonValue
  | bool : Bool → JsonValue
  | num : Int → JsonValue
  | str : String → JsonValue
  | arr : List JsonValue → JsonValue
  | obj : List (String × JsonValue) → JsonValue

/-- One element of the chain passed to
`IntegrityValidator.validate_process_chain`.  Each Python dict key that the
function reads is modelled as an `Option` field recording presence. -/
structure ChainRecord where
  stage : Option String
  timestamp : Option Nat
  data_hash : Option String
  data : Option JsonValue
  previous_hash : Option String

/-- The per-record entry appended to `validation_results` by
`validate_process_chain` (integrity_validator.py lines 181-221).
`missingFields` marks the required-fields failure branch, in which Python
stores only `index`, `is_valid = False` and an error text. -/
structure RecordResult where
  index : Nat
  missingFields : Bool
  hash_valid : Option Bool
  prev_hash_valid : Option Bool
  is_valid : Bool
deriving Repr, DecidableEq

def defaultRecord : ChainRecord := ⟨none, none, none, none, none⟩

def defaultResult : RecordResult := ⟨0, false, none, none, false⟩

/-- The per-record body of the loop in `validate_process_chain`
(integrity_validator.py lines 176-221), producing the entry appended to
`validation_results` for one record.  `hashData` abstracts
`generate_data_hash` (SHA-256 of the canonical JSON form); `prevHash` is the
running `previous_hash` Python variable. -/
def mkResult (hashData : JsonValue → String) (i : Nat) (prevHash : Option String)
    (r : ChainRecord) : RecordResult :=
  match r.stage, r.timestamp, r.data_hash with
  | some _, some _, some dh =>
    let hashValid : Option Bool :=
      match r.data with
      | some d => some (hashData d == dh)
      | none => none
    let prevValid : Option Bool :=
      match prevHash, r.previous_hash with
      | some p, some q => some (q == p)
      | _, _ => none
    { index := i, missingFields := false, hash_valid := hashValid,
      prev_hash_valid := prevValid,
      is_valid := !(hashValid == some false) && !(prevValid == some false) }
  | _, _, _ =>
    { index := i, missingFields := true, hash_valid := none,
      prev_hash_valid := none, is_valid := false }

/-- Update of the running `previous_hash` variable: set to the record's
`data_hash` after a complete record (line 211); left unchanged by the
missing-fields `continue` branch (line 186). -/
def nextPrevHash (prevHash : Option String) (r : ChainRecord) : Option String :=
  match r.stage, r.timestamp, r.data_hash with
  | some _, some _, some dh => some dh
  | _, _, _ => prevHash

/-- Loop state of `validate_process_chain`: enumeration index, overall
`is_valid` flag, running `previous_hash`, accumulated `validation_results`. -/
structure ChainAcc where
  idx : Nat
  valid : Bool
  prevHash : Option String
  results : List RecordResult

/-- One iteration of the `for i, data in enumerate(chain_data)` loop.  The
overall flag is cleared exactly when the record's own entry is invalid
(missing fields, a recomputed hash mismatch, or a previous-hash mismatch). -/
def chainStep (hashData : JsonValue → String) (acc : ChainAcc) (r : ChainRecord) : ChainAcc :=
  let res := mkResult hashData acc.idx acc.prevHash r
  { idx := acc.idx + 1,
    valid := acc.valid && res.is_valid,
    prevHash := nextPrevHash acc.prevHash r,
    results := acc.results ++ [res] }

/-- `IntegrityValidator.validate_process_chain` (integrity_validator.py lines
157-246): an empty chain returns `False` immediately (lines 166-168);
otherwise the loop runs over the records and the overall flag plus the
recorded `validation_results` are produced. -/
def validate_process_chain (hashData : JsonValue → String)
    (chain_data : List ChainRecord) : Bool × List RecordResult :=
  if chain_data.isEmpty then (false, [])
  else
    let acc := chain_data.foldl (chainStep hashData) ⟨0, true, none, []⟩
    (acc.valid, acc.results)

/-- Specification of the sequence of `validation_results` entries produced by
the loop, starting at index `i` with running previous hash `ph`. -/
def resultsFrom (hashData : JsonValue → String) :
    Nat → Option String → List ChainRecord → List RecordResult
  | _, _, [] => []
  | i, ph, r :: rest =>
    mkResult hashData i ph r :: resultsFrom hashData (i + 1) (nextPrevHash ph r) rest

/-- The running `previous_hash` variable after the loop has consumed `l`. -/
def phAfter (ph : Option String) (l : List ChainRecord) : Option String :=
  l.foldl nextPrevHash ph

/-- A record carries the three required fields (line 178 of
integrity_validator.py). -/
def completeRec (r : ChainRecord) : Bool :=
  r.stage.isSome && r.timestamp.isSome && r.data_hash.isSome

/-- When a record embeds a payload, its recomputed digest matches the recorded
`data_hash`; vacuously true when either field is absent. -/
def dataMatch (hashData : JsonValue → String) (r : ChainRecord) : Bool :=
  match r.data, r.data_hash with
  | some d, some dh => hashData d == dh
  | _, _ => true

/-- When both the running previous hash and the record's `previous_hash` are
present, they agree; vacuously true otherwise. -/
def prevMatch (ph : Option String) (r : ChainRecord) : Bool :=
  match ph, r.previous_hash with
  | some p, some q => q == p
  | _, _ => true

/-- A well-formed chain segment relative to an incoming running hash: every
record is complete, its embedded payload (if any) matches its `data_hash`,
and its `previous_hash` (if present) matches the predecessor's `data_hash`. -/
def goodFrom (hashData : JsonValue → String) : Option String → List ChainRecord → Bool
  | _, [] => true
  | ph, r :: rest =>
    completeRec r && dataMatch hashData r && prevMatch ph r &&
      goodFrom hashData (nextPrevHash ph r) rest

/-- The HMAC-SHA256 of `IntegrityValidator.create_integrity_signature`
(integrity_validator.py lines 248-282): the keyed digest of the canonical
JSON serialization of the data.  `hmacSha256 key message` abstracts
`hmac.new(key, message, sha256).hexdigest()`; `dumps` abstracts
`json.dumps(data, sort_keys=True)`. -/
def create_integrity_signature (hmacSha256 : String → String → String)
    (dumps : JsonValue → String) (data : JsonValue) (secret_key : String) : String :=
  hmacSha256 secret_key (dumps data)

/-- `IntegrityValidator.verify_integrity_signature` (lines 284-325):
recompute the signature and compare with `hmac.compare_digest`, whose result
equals string equality (its constant-time execution is a timing property with
no functional effect). -/
def verify_integrity_signature (hmacSha256 : String → String → String)
    (dumps : JsonValue → String) (data : JsonValue) (signature : String)
    (secret_key : String) : Bool :=
  create_integrity_signature hmacSha256 dumps data secret_key == signature

/-- A document of the `tasks` MongoDB collection (worker.py lines 347-389):
`_id`, `status`, `priority`, `created_at`, `progress`, `message`,
`updated_at`, plus the `worker_id` stamped by the lease. -/
structure QueueTask where
  id : String
  status : String
  priority : Int
  created_at : Nat
  progress : Nat
  message : String
  updated_at : Nat
  worker_id : Option Nat
deriving Repr, DecidableEq

/-- Strict sort order of the lease query (worker.py line 112):
`priority` descending, then `created_at` ascending. -/
def leaseBefore (a b : QueueTask) : Bool :=
  decide (b.priority < a.priority) ||
    (decide (a.priority = b.priority) && decide (a.created_at < b.created_at))

/-- Keep the current best candidate unless the next one sorts strictly
before it. -/
def pickBetter (best c : QueueTask) : QueueTask :=
  if leaseBefore c best then c else best

/-- First document in lease-sorted order; ties beyond the sort keys keep the
earlier store position (a stable choice, matching natural order). -/
def selectBest : List QueueTask → Option QueueTask
  | [] => none
  | t :: ts => some (ts.foldl pickBetter t)

/-- The atomic `find_one_and_update` claim of worker.py lines 109-113:
select the first pending task in sorted order, set it to `processing` with
`updated_at` and `worker_id` in the same atomic step, and return the matched
document (pymongo returns the pre-update document by default).  Returns
`none` and leaves the store unchanged when nothing is pending. -/
def lease (store : List QueueTask) (now : Nat) (wid : Nat) : Option QueueTask × List QueueTask :=
  match selectBest (store.filter (fun t => t.status == "pending")) with
  | none => (none, store)
  | some t =>
    (some t,
     store.map (fun u =>
       if u.id == t.id then
         { u with status := "processing", updated_at := now, worker_id := some wid }
       else u))

/-- `Worker.update_task_status` (worker.py lines 323-344): an unconditional
`update_one` setting status, progress, message and `updated_at`; the current
status of the task is not consulted. -/
def update_task_status (store : List QueueTask) (task_id : String) (status : String)
    (progress : Nat) (message : String) (now : Nat) : List QueueTask :=
  store.map (fun t =>
    if t.id == task_id then
      { t with status := status, progress := progress, message := message,
               updated_at := now }
    else t)

/-- QueueTask A of the ordering scenario: priority 5, created later. -/
def taskA : QueueTask := ⟨"A", "pending", 5, 10, 0, "", 10, none⟩

/-- QueueTask B of the ordering scenario: priority 1, created earlier. -/
def taskB : QueueTask := ⟨"B", "pending", 1, 1, 0, "", 1, none⟩

/-- A store holding the two pending tasks of the ordering scenario. -/
def storeTwo : List QueueTask := [taskB, taskA]

/-- One entry of the in-memory `active_processes` registry of web/app.py
(lines 124-132): status, progress, current stage and the recorded error. -/
structure ProcState where
  status : String
  progress : Nat
  current_stage : String
  error : Option String
deriving Repr, DecidableEq

/-- Message of the `ValueError` raised by `update_process_status` when the
cancel flag is observed (web/app.py line 466). -/
def cancelledByUserMsg : String := "Processus annul\xe9 par l\x27utilisateur"

/-- `update_process_status` (web/app.py lines 454-473) for a registered
process: raise (modelled as `Except.error`) when the status is `cancelled`,
otherwise overwrite status, progress and current stage.  No other status —
terminal or not — blocks the update. -/
def update_process_status (p : ProcState) (status : String) (progress : Nat)
    (stage : String) : Except String ProcState :=
  if p.status == "cancelled" then
    Except.error cancelledByUserMsg
  else
    Except.ok { p with status := status, progress := progress, current_stage := stage }

/-- `cancel_conversion` (web/app.py lines 238-254) for a registered process:
rejected (HTTP 400, modelled as `Except.error`) only when the status is
`completed` or `failed`; otherwise the status becomes `cancelled`, progress
is set to 100 and the stage to `annulation`. -/
def cancel_conversion (p : ProcState) : Except String ProcState :=
  if p.status == "completed" || p.status == "failed" then
    Except.error "Processus d\xe9j\xe0 termin\xe9"
  else
    Except.ok { p with status := "cancelled", progress := 100,
                       current_stage := "annulation" }

/-- Effect of an external cancel request on the process state: the state
after `cancel_conversion` when it is accepted, the unchanged state when it is
rejected. -/
def applyCancel (p : ProcState) : ProcState :=
  match cancel_conversion p with
  | Except.ok p2 => p2
  | Except.error _ => p

/-- Inject the external cancel request just before the `n`-th status update
of the pipeline, if the request is scheduled there. -/
def maybeCancel (cancelAt : Option Nat) (n : Nat) (p : ProcState) : ProcState :=
  if cancelAt == some n then applyCancel p else p

/-- The `except` handler of `process_conversion` (web/app.py lines 438-451):
status `failed`, the exception message as error, progress 100, stage
`erreur`. -/
def handleFailure (p : ProcState) (msg : String) : ProcState :=
  { p with status := "failed", error := some msg, progress := 100,
           current_stage := "erreur" }

/-- The stage boundaries of `process_conversion` (web/app.py lines 319-409):
each entry pairs the boundary `update_process_status` arguments with the
`stage` name its artifact is recorded under by `save_file_info`. -/
def appStages (publish : Bool) : List ((String × Nat × String) × String) :=
  [(("downloading", 5, "T\xe9l\xe9chargement de la vid\xe9o"), "acquisition"),
   (("analyzing", 20, "Analyse de la vid\xe9o"), "analysis"),
   (("editing", 40, "Montage de la vid\xe9o"), "editing"),
   (("adapting", 60, "Adaptation au format TikTok"), "adaptation"),
   (("optimizing", 75, "Optimisation pour la viralit\xe9"), "optimization")] ++
  (if publish then [(("publishing", 90, "Publication sur TikTok"), "publication")] else [])

/-- Run the stage boundaries of `process_conversion` in order.  Before each
boundary update the pending external cancel request (if scheduled at this
point) is applied; a boundary update that raises aborts the pipeline, its
exception flowing to `handleFailure`.  A successful boundary update is
followed by the stage's (opaque) work and the recording of its artifact,
after which the next boundary runs.  The trailing element models the final
`completed` update (web/app.py line 436). -/
def runAppStages (cancelAt : Option Nat) :
    List ((String × Nat × String) × String) → Nat → ProcState → List String →
      ProcState × List String
  | [], n, p, arts =>
    let p := maybeCancel cancelAt n p
    match update_process_status p "completed" 100 "Conversion termin\xe9e" with
    | Except.ok p2 => (p2, arts)
    | Except.error msg => (handleFailure p msg, arts)
  | ((st, pr, sg), art) :: rest, n, p, arts =>
    let p := maybeCancel cancelAt n p
    match update_process_status p st pr sg with
    | Except.ok p2 => runAppStages cancelAt rest (n + 1) p2 (arts ++ [art])
    | Except.error msg => (handleFailure p msg, arts)

/-- `process_conversion` (web/app.py lines 277-451) restricted to its state
machine: starting from the `processing` state (line 297), drive the stage
boundaries with an external cancel request scheduled before boundary number
`cancelAt` (counting from 0), returning the final process state and the list
of stages whose artifacts were recorded. -/
def runConversion (publish : Bool) (cancelAt : Option Nat) : ProcState × List String :=
  runAppStages cancelAt (appStages publish) 0
    { status := "processing", progress := 0, current_stage := "initialisation",
      error := none } []

/-- A process in the `completed` terminal state. -/
def procCompleted : ProcState := ⟨"completed", 100, "termin\xe9", none⟩

/-- A process in the `cancelled` terminal state, as `cancel_conversion`
leaves it. -/
def procCancelled : ProcState := ⟨"cancelled", 100, "annulation", none⟩

/-- One audit event, i.e. one element of the `events` array of the audit
document (audit.py lines 70-77): its `type` plus its details, the latter
collapsed to one string since no claim inspects their structure. -/
structure AuditEvent where
  etype : String
  detail : String
deriving Repr, DecidableEq

/-- The persisted audit document: the single root record that
`AuditLogger._init_log` creates (`self.logs[0]`, audit.py lines 48-55). -/
structure AuditDoc where
  status : String
  error : Option String
  events : List AuditEvent
deriving Repr, DecidableEq

/-- Constructing `AuditLogger(process_id)` (audit.py lines 22-61):
`__init__` sets `self.logs = []`, `_init_log` appends a fresh root record
with `status = "started"` and an empty `events` list, and `_write_log` opens
the JSON file with mode `w`, replacing whatever document was persisted for
this process before; the argument — the previously persisted document, if
any — is never read. -/
def auditLoggerInit (_persisted : Option AuditDoc) : AuditDoc :=
  { status := "started", error := none, events := [] }

/-- `AuditLogger.log_event` (audit.py lines 63-80): append the event to
`logs[0]["events"]` and flush. -/
def log_event (d : AuditDoc) (etype detail : String) : AuditDoc :=
  { d with events := d.events ++ [⟨etype, detail⟩] }

/-- `AuditLogger.log_start` (audit.py lines 114-128): a `process_start`
event. -/
def log_start (d : AuditDoc) (source_url : String) : AuditDoc :=
  log_event d "process_start" source_url

/-- `AuditLogger.log_completion` (audit.py lines 130-156): a
`process_complete` event, then `status = "completed"`. -/
def log_completion (d : AuditDoc) (result : String) : AuditDoc :=
  { log_event d "process_complete" result with status := "completed" }

/-- `AuditLogger.log_error` (audit.py lines 158-179): an `error` event, then
`status = "error"` and the error message on the root record. -/
def log_error (d : AuditDoc) (error_message : String) : AuditDoc :=
  { log_event d "error" error_message with
      status := "error", error := some error_message }

/-- The six pipeline stages of `Worker.process_task` (worker.py lines
174-264): artifact stage name, progress value and message of the
`update_task_status` boundary call preceding the stage's work. -/
def workerStages (publish : Bool) : List (String × Nat × String) :=
  [("acquisition", 5, "T\xe9l\xe9chargement de la vid\xe9o"),
   ("analysis", 20, "Analyse de la vid\xe9o"),
   ("editing", 40, "Montage de la vid\xe9o"),
   ("adaptation", 60, "Adaptation au format TikTok"),
   ("optimization", 75, "Optimisation pour la viralit\xe9")] ++
  (if publish then [("publication", 90, "Publication sur TikTok")] else [])

/-- Result of one `Worker.process_task` run: the task store, the persisted
audit document, and the stages whose artifacts were recorded. -/
structure WorkerRun where
  store : List QueueTask
  audit : AuditDoc
  artifacts : List String
deriving Repr, DecidableEq

/-- The stage loop of `Worker.process_task`: each stage first updates the
task status at its boundary, then runs its collaborator.  A collaborator
that raises (`failAt` names the raising stage, `failMsg` the exception text)
jumps to the handler of worker.py lines 310-321: a **new** `AuditLogger` is
constructed for the same process (line 315) and `log_error` called on it,
then the task is set to `failed` with progress 100 and message
`"Erreur: " ++ failMsg`; no later stage runs.  A stage that succeeds records
its artifact and the loop continues; after all stages the completion path of
lines 266-306 runs. -/
def runWorkerStages (failAt : Option String) (failMsg : String) (task_id : String)
    (now : Nat) :
    List (String × Nat × String) → List QueueTask → AuditDoc → List String → WorkerRun
  | [], store, audit, arts =>
    ⟨update_task_status store task_id "completed" 100 "Conversion termin\xe9e" now,
     log_completion audit "final_report", arts⟩
  | (stage, pct, msg) :: rest, store, audit, arts =>
    let store := update_task_status store task_id "processing" pct msg now
    if failAt == some stage then
      ⟨update_task_status store task_id "failed" 100 (String.append "Erreur: " failMsg) now,
       log_error (auditLoggerInit (some audit)) failMsg, arts⟩
    else
      runWorkerStages failAt failMsg task_id now rest store audit (arts ++ [stage])

/-- `Worker.process_task` (worker.py lines 132-321): initial `processing`
status update, audit trail start, then the stage loop. -/
def process_task (publish : Bool) (failAt : Option String) (failMsg : String)
    (store : List QueueTask) (task_id : String) (url : String) (now : Nat) : WorkerRun :=
  let store := update_task_status store task_id "processing" 0 "Initialisation" now
  let audit := log_start (auditLoggerInit none) url
  runWorkerStages failAt failMsg task_id now (workerStages publish) store audit []

/-- A pending task used to instantiate the worker scenarios. -/
def taskP : QueueTask := ⟨"T", "pending", 0, 0, 0, "", 0, none⟩

/-- Digest function for the concrete chain scenarios; the records of those
scenarios embed no payload, so it is never consulted by the validator. -/
def hashCE : JsonValue → String := fun _ => "h"

/-- A complete chain record with the given `data_hash` and `previous_hash`
and no embedded payload. -/
def chainRec (dh : Option String) (ph : Option String) : ChainRecord :=
  ⟨some "stage", some 0, dh, none, ph⟩

/-- Three complete, payload-free records whose only inconsistency is that the
middle record's `previous_hash` differs from its predecessor's `data_hash`;
the last record's `previous_hash` again matches its predecessor. -/
def chainBroken : List ChainRecord :=
  [chainRec (some "h0") none,
   chainRec (some "h1") (some "BAD"),
   chainRec (some "h2") (some "h1")]

/-- A complete record with both optional check fields absent: no embedded
payload and no `previous_hash`. -/
def recNoOptional : ChainRecord := chainRec (some "h0") none

/-- Witness HMAC: a concrete keyed digest used to instantiate the signature
theorems. -/
def hmacW : String → String → String := fun key msg => String.append key (String.append "." msg)

/-- Witness serializer for the signature theorems. -/
def dumpsW : JsonValue → String := fun _ => "null"

/-- A task already in the `completed` terminal state, used to exercise the
worker-side status update on a terminal task. -/
def taskDone : QueueTask := ⟨"T", "completed", 0, 0, 100, "done", 0, none⟩

/-- The per-record entry that `validate_process_chain` records at position
`j` of `validation_results`. -/
def chainResultAt (hashData : JsonValue → String) (chain : List ChainRecord)
    (j : Nat) : RecordResult :=
  (validate_process_chain hashData chain).2.getD j defaultResult

/-- Claim C10: `validate_process_chain` applied to an empty list of records
returns false (and records no per-record results): an empty chain is reported
invalid rather than vacuously valid. -/
theorem c10_empty_chain_invalid :
    ∀ hashData : JsonValue → String,
      validate_process_chain hashData [] = (false, []) := by
  intro hashData
  rfl

lemma foldl_chainStep_results (hashData : JsonValue → String) :
    ∀ (l : List ChainRecord) (acc : ChainAcc),
      (l.foldl (chainStep hashData) acc).results =
        acc.results ++ resultsFrom hashData acc.idx acc.prevHash l := by
  intro l
  induction l with
  | nil => intro acc; simp [resultsFrom]
  | cons r rest ih =>
    intro acc
    rw [List.foldl_cons, ih]
    simp [chainStep, resultsFrom]

lemma foldl_chainStep_valid (hashData : JsonValue → String) :
    ∀ (l : List ChainRecord) (acc : ChainAcc),
      (l.foldl (chainStep hashData) acc).valid =
        (acc.valid && (resultsFrom hashData acc.idx acc.prevHash l).all
          (fun res => res.is_valid)) := by
  intro l
  induction l with
  | nil => intro acc; simp [resultsFrom]
  | cons r rest ih =>
    intro acc
    rw [List.foldl_cons, ih]
    simp [chainStep, resultsFrom, Bool.and_assoc]

lemma validate_snd (hashData : JsonValue → String) (chain : List ChainRecord)
    (hne : chain ≠ []) :
    (validate_process_chain hashData chain).2 = resultsFrom hashData 0 none chain := by
  unfold validate_process_chain
  rw [if_neg (by simpa [List.isEmpty_iff] using hne)]
  simpa using foldl_chainStep_results hashData chain ⟨0, true, none, []⟩

lemma validate_fst_eq_all (hashData : JsonValue → String) (chain : List ChainRecord) :
    (validate_process_chain hashData chain).1 =
      (!chain.isEmpty &&
        (validate_process_chain hashData chain).2.all (fun res => res.is_valid)) := by
  cases chain with
  | nil => rfl
  | cons r rest =>
    unfold validate_process_chain
    simp only [List.isEmpty_cons, if_false, Bool.false_eq_true, Bool.not_false,
      Bool.true_and]
    rw [foldl_chainStep_valid, foldl_chainStep_results]
    simp

lemma resultsFrom_length (hashData : JsonValue → String) :
    ∀ (l : List ChainRecord) (i : Nat) (ph : Option String),
      (resultsFrom hashData i ph l).length = l.length := by
  intro l
  induction l with
  | nil => intro i ph; rfl
  | cons r rest ih => intro i ph; simp [resultsFrom, ih]

lemma resultsFrom_append (hashData : JsonValue → String) :
    ∀ (l₁ l₂ : List ChainRecord) (i : Nat) (ph : Option String),
      resultsFrom hashData i ph (l₁ ++ l₂) =
        resultsFrom hashData i ph l₁ ++
          resultsFrom hashData (i + l₁.length) (phAfter ph l₁) l₂ := by
  intro l₁
  induction l₁ with
  | nil => intro l₂ i ph; simp [resultsFrom, phAfter]
  | cons r rest ih =>
    intro l₂ i ph
    simp only [List.cons_append, resultsFrom, List.append_eq, ih, List.length_cons]
    rw [(by omega : i + 1 + rest.length = i + (rest.length + 1))]
    rw [(by simp [phAfter] :
      phAfter (nextPrevHash ph r) rest = phAfter ph (r :: rest))]

lemma resultsFrom_getD (hashData : JsonValue → String) :
    ∀ (l : List ChainRecord) (j : Nat) (i : Nat) (ph : Option String),
      j < l.length →
        (resultsFrom hashData i ph l).getD j defaultResult =
          mkResult hashData (i + j) (phAfter ph (l.take j)) (l.getD j defaultRecord) := by
  intro l
  induction l with
  | nil => intro j i ph hj; simp at hj
  | cons r rest ih =>
    intro j i ph hj
    cases j with
    | zero => simp [resultsFrom, phAfter]
    | succ j =>
      simp only [resultsFrom, List.getD_cons_succ, List.take_succ_cons]
      rw [ih j (i + 1) (nextPrevHash ph r) (by simpa using hj)]
      rw [(by omega : i + 1 + j = i + (j + 1))]
      rw [(by simp [phAfter] :
        phAfter (nextPrevHash ph r) (rest.take j) = phAfter ph (r :: rest.take j))]

lemma mkResult_good (hashData : JsonValue → String) (i : Nat) (ph : Option String)
    (r : ChainRecord) (hc : completeRec r = true)
    (hd : dataMatch hashData r = true) (hp : prevMatch ph r = true) :
    (mkResult hashData i ph r).is_valid = true := by
  obtain ⟨st, ts, dhv, dat, pv⟩ := r
  simp only [completeRec, Bool.and_eq_true, Option.isSome_iff_exists] at hc
  obtain ⟨⟨⟨s, hs⟩, ⟨t2, ht2⟩⟩, ⟨d2, hd2⟩⟩ := hc
  subst hs; subst ht2; subst hd2
  cases dat with
  | none =>
    cases pv with
    | none => simp [mkResult]
    | some q =>
      cases ph with
      | none => simp [mkResult]
      | some p =>
        simp only [prevMatch] at hp
        simp [mkResult, hp]
  | some d =>
    simp only [dataMatch] at hd
    cases pv with
    | none => simp [mkResult, hd]
    | some q =>
      cases ph with
      | none => simp [mkResult, hd]
      | some p =>
        simp only [prevMatch] at hp
        simp [mkResult, hd, hp]

lemma goodFrom_all_valid (hashData : JsonValue → String) :
    ∀ (l : List ChainRecord) (i : Nat) (ph : Option String),
      goodFrom hashData ph l = true →
        ∀ res ∈ resultsFrom hashData i ph l, res.is_valid = true := by
  intro l
  induction l with
  | nil => intro i ph _ res hres; simp [resultsFrom] at hres
  | cons r rest ih =>
    intro i ph hg res hres
    simp only [goodFrom, Bool.and_eq_true] at hg
    simp only [resultsFrom, List.mem_cons] at hres
    rcases hres with hres | hres
    · subst hres
      exact mkResult_good hashData i ph r hg.1.1.1 hg.1.1.2 hg.1.2
    · exact ih i.succ (nextPrevHash ph r) hg.2 res hres

lemma mkResult_break (hashData : JsonValue → String) (i : Nat) (p q : String)
    (r : ChainRecord) (hc : completeRec r = true) (hq : r.previous_hash = some q)
    (hne : q ≠ p) :
    (mkResult hashData i (some p) r).is_valid = false := by
  obtain ⟨st, ts, dhv, dat, pv⟩ := r
  simp only [completeRec, Bool.and_eq_true, Option.isSome_iff_exists] at hc
  obtain ⟨⟨⟨s, hs⟩, ⟨t2, ht2⟩⟩, ⟨d2, hd2⟩⟩ := hc
  subst hs; subst ht2; subst hd2
  simp only at hq
  subst hq
  cases dat with
  | none => simp [mkResult, hne]
  | some d => simp [mkResult, hne]

lemma all_false_of_mem {l : List RecordResult} {x : RecordResult} (hx : x ∈ l)
    (hfx : x.is_valid = false) : l.all (fun res => res.is_valid) = false := by
  rcases hb : l.all (fun res => res.is_valid) with _ | _
  · rfl
  · have := List.all_eq_true.mp hb x hx
    rw [this] at hfx
    cases hfx

/-- Claim C1 as stated is false on the code: in a three-record chain whose
records all carry the required fields, where only record 1's `previous_hash`
differs from record 0's `data_hash` (record 2's `previous_hash` again equals
record 1's `data_hash` and no record embeds a payload), the validator returns
false and marks record 1 invalid — but record 2, although its index is `>= i`,
is marked valid, contradicting the claim that exactly the records with index
`>= i` are marked invalid. -/
theorem c1_counterexample :
    chainBroken.all completeRec = true ∧
    (chainBroken.getD 1 defaultRecord).previous_hash = some "BAD" ∧
    (chainBroken.getD 0 defaultRecord).data_hash = some "h0" ∧
    "BAD" ≠ "h0" ∧
    (chainBroken.getD 2 defaultRecord).previous_hash =
      (chainBroken.getD 1 defaultRecord).data_hash ∧
    (validate_process_chain hashCE chainBroken).1 = false ∧
    (chainResultAt hashCE chainBroken 1).is_valid = false ∧
    (chainResultAt hashCE chainBroken 2).is_valid = true := by
  decide

/-- Claim C1 (amended): in a chain of complete records whose embedded
payloads all match, with exactly one previous-hash break — the record `bad`
after prefix `pre` references `q` while the running hash is `p ≠ q`, and
every other record's `previous_hash` matches its immediate predecessor —
`validate_process_chain` returns false and the per-record results mark
exactly the breaking record invalid: every record before it and every record
after it stays marked valid (the previous-hash check is pairwise against the
immediate predecessor's recorded `data_hash`, not transitive). -/
theorem c1_break_invalidates_only_breaking_record
    (hashData : JsonValue → String) (pre post : List ChainRecord)
    (bad : ChainRecord) (p q : String)
    (hpre : goodFrom hashData none pre = true)
    (hc : completeRec bad = true)
    (_hd : dataMatch hashData bad = true)
    (hph : phAfter none pre = some p)
    (hq : bad.previous_hash = some q)
    (hne : q ≠ p)
    (hpost : goodFrom hashData (nextPrevHash (some p) bad) post = true) :
    (validate_process_chain hashData (pre ++ bad :: post)).1 = false ∧
    (validate_process_chain hashData (pre ++ bad :: post)).2.length =
      (pre ++ bad :: post).length ∧
    ((validate_process_chain hashData (pre ++ bad :: post)).2.take pre.length).all
      (fun res => res.is_valid) = true ∧
    (chainResultAt hashData (pre ++ bad :: post) pre.length).is_valid = false ∧
    ((validate_process_chain hashData (pre ++ bad :: post)).2.drop (pre.length + 1)).all
      (fun res => res.is_valid) = true := by
  have hne2 : pre ++ bad :: post ≠ [] := by simp
  have hsnd := validate_snd hashData (pre ++ bad :: post) hne2
  have hsplit : resultsFrom hashData 0 none (pre ++ bad :: post) =
      resultsFrom hashData 0 none pre ++
        (mkResult hashData pre.length (some p) bad ::
          resultsFrom hashData (pre.length + 1) (nextPrevHash (some p) bad) post) := by
    rw [resultsFrom_append hashData pre (bad :: post) 0 none, hph]
    simp [resultsFrom]
  have hlen_pre : (resultsFrom hashData 0 none pre).length = pre.length :=
    resultsFrom_length hashData pre 0 none
  have hallpre := goodFrom_all_valid hashData pre 0 none hpre
  have hallpost := goodFrom_all_valid hashData post (pre.length + 1)
    (nextPrevHash (some p) bad) hpost
  have hbad : (mkResult hashData pre.length (some p) bad).is_valid = false :=
    mkResult_break hashData pre.length p q bad hc hq hne
  refine ⟨?_, ?_, ?_, ?_, ?_⟩
  · rw [validate_fst_eq_all, hsnd, hsplit]
    have hmem : mkResult hashData pre.length (some p) bad ∈
        resultsFrom hashData 0 none pre ++
          (mkResult hashData pre.length (some p) bad ::
            resultsFrom hashData (pre.length + 1) (nextPrevHash (some p) bad) post) := by
      simp
    rw [all_false_of_mem hmem hbad]
    simp
  · rw [hsnd, hsplit]
    simp [hlen_pre, resultsFrom_length]
  · rw [hsnd, hsplit, ← hlen_pre, List.take_left]
    exact List.all_eq_true.mpr hallpre
  · unfold chainResultAt
    rw [hsnd, hsplit, List.getD_append_right _ _ _ _ (by rw [hlen_pre]), hlen_pre]
    simpa using hbad
  · rw [hsnd, hsplit]
    set Rpre := resultsFrom hashData 0 none pre with hRpre
    set bres := mkResult hashData pre.length (some p) bad with hbres
    set Rpost :=
      resultsFrom hashData (pre.length + 1) (nextPrevHash (some p) bad) post
      with hRpost
    have hres : Rpre ++ bres :: Rpost = (Rpre ++ [bres]) ++ Rpost := by simp
    rw [hres, (by simp [hlen_pre] : pre.length + 1 = (Rpre ++ [bres]).length),
      List.drop_left]
    exact List.all_eq_true.mpr hallpost

/-- Witness for the amended claim C1 at the concrete broken chain: prefix of
one record, the breaking record, suffix of one record. -/
theorem c1_break_witness :
    (validate_process_chain hashCE chainBroken).1 = false ∧
    (validate_process_chain hashCE chainBroken).2.length = chainBroken.length ∧
    ((validate_process_chain hashCE chainBroken).2.take 1).all
      (fun res => res.is_valid) = true ∧
    (chainResultAt hashCE chainBroken 1).is_valid = false ∧
    ((validate_process_chain hashCE chainBroken).2.drop 2).all
      (fun res => res.is_valid) = true :=
  c1_break_invalidates_only_breaking_record hashCE
    [chainRec (some "h0") none] [chainRec (some "h2") (some "h1")]
    (chainRec (some "h1") (some "BAD")) "h0" "BAD"
    (by decide) (by decide) (by decide) (by decide) (by decide)
    (by decide) (by decide)

lemma mkResult_hash_valid_of_no_data (hashData : JsonValue → String) (i : Nat)
    (ph : Option String) (r : ChainRecord) (hc : completeRec r = true)
    (hdat : r.data = none) :
    (mkResult hashData i ph r).hash_valid = none := by
  obtain ⟨st, ts, dhv, dat, pv⟩ := r
  simp only [completeRec, Bool.and_eq_true, Option.isSome_iff_exists] at hc
  obtain ⟨⟨⟨s, hs⟩, ⟨t2, ht2⟩⟩, ⟨d2, hd2⟩⟩ := hc
  subst hs; subst ht2; subst hd2
  simp only at hdat
  subst hdat
  cases ph <;> cases pv <;> simp [mkResult]

lemma mkResult_prev_valid_of_no_prev (hashData : JsonValue → String) (i : Nat)
    (ph : Option String) (r : ChainRecord) (hc : completeRec r = true)
    (hprev : r.previous_hash = none) :
    (mkResult hashData i ph r).prev_hash_valid = none := by
  obtain ⟨st, ts, dhv, dat, pv⟩ := r
  simp only [completeRec, Bool.and_eq_true, Option.isSome_iff_exists] at hc
  obtain ⟨⟨⟨s, hs⟩, ⟨t2, ht2⟩⟩, ⟨d2, hd2⟩⟩ := hc
  subst hs; subst ht2; subst hd2
  simp only at hprev
  subst hprev
  cases ph <;> cases dat <;> simp [mkResult]

lemma mkResult_is_valid_conj (hashData : JsonValue → String) (i : Nat)
    (ph : Option String) (r : ChainRecord) (hc : completeRec r = true) :
    (mkResult hashData i ph r).is_valid =
      (!((mkResult hashData i ph r).hash_valid == some false) &&
       !((mkResult hashData i ph r).prev_hash_valid == some false)) := by
  obtain ⟨st, ts, dhv, dat, pv⟩ := r
  simp only [completeRec, Bool.and_eq_true, Option.isSome_iff_exists] at hc
  obtain ⟨⟨⟨s, hs⟩, ⟨t2, ht2⟩⟩, ⟨d2, hd2⟩⟩ := hc
  subst hs; subst ht2; subst hd2
  cases ph <;> cases dat <;> cases pv <;> simp [mkResult]

/-- Claim C2: in `validate_process_chain`, for every complete record in which
an optional check field is absent, that check yields "not applicable": with
no embedded payload the recorded `hash_valid` is `none` (in particular never
a pass), with no `previous_hash` the recorded `prev_hash_valid` is `none`;
the record's own validity is the conjunction of only the checks that were
applicable (a `none` check is excluded, only an explicit `false` fails it);
and the overall chain verdict is the conjunction of the per-record
validities over a nonempty chain. -/
theorem c2_absent_checks_not_applicable
    (hashData : JsonValue → String) (chain : List ChainRecord) (j : Nat)
    (hj : j < chain.length)
    (hc : completeRec (chain.getD j defaultRecord) = true) :
    ((chain.getD j defaultRecord).data = none →
      (chainResultAt hashData chain j).hash_valid = none ∧
      (chainResultAt hashData chain j).hash_valid ≠ some true) ∧
    ((chain.getD j defaultRecord).previous_hash = none →
      (chainResultAt hashData chain j).prev_hash_valid = none) ∧
    (chainResultAt hashData chain j).is_valid =
      (!((chainResultAt hashData chain j).hash_valid == some false) &&
       !((chainResultAt hashData chain j).prev_hash_valid == some false)) ∧
    (validate_process_chain hashData chain).1 =
      (!chain.isEmpty &&
        (validate_process_chain hashData chain).2.all (fun res => res.is_valid)) := by
  have hne : chain ≠ [] := by
    intro h
    subst h
    simp at hj
  have hres : chainResultAt hashData chain j =
      mkResult hashData (0 + j) (phAfter none (chain.take j))
        (chain.getD j defaultRecord) := by
    unfold chainResultAt
    rw [validate_snd hashData chain hne]
    exact resultsFrom_getD hashData chain j 0 none hj
  refine ⟨?_, ?_, ?_, validate_fst_eq_all hashData chain⟩
  · intro hdat
    have h1 := mkResult_hash_valid_of_no_data hashData (0 + j)
      (phAfter none (chain.take j)) (chain.getD j defaultRecord) hc hdat
    rw [hres, h1]
    exact ⟨rfl, by simp⟩
  · intro hprev
    rw [hres]
    exact mkResult_prev_valid_of_no_prev hashData (0 + j)
      (phAfter none (chain.take j)) (chain.getD j defaultRecord) hc hprev
  · rw [hres]
    exact mkResult_is_valid_conj hashData (0 + j)
      (phAfter none (chain.take j)) (chain.getD j defaultRecord) hc

/-- Witness for claim C2 at a one-record chain whose record is complete but
carries neither an embedded payload nor a `previous_hash`. -/
theorem c2_witness :
    (chainResultAt hashCE [recNoOptional] 0).hash_valid = none ∧
    (chainResultAt hashCE [recNoOptional] 0).prev_hash_valid = none ∧
    (chainResultAt hashCE [recNoOptional] 0).is_valid =
      (!((chainResultAt hashCE [recNoOptional] 0).hash_valid == some false) &&
       !((chainResultAt hashCE [recNoOptional] 0).prev_hash_valid == some false)) ∧
    (validate_process_chain hashCE [recNoOptional]).1 =
      (!(List.isEmpty [recNoOptional]) &&
        (validate_process_chain hashCE [recNoOptional]).2.all
          (fun res => res.is_valid)) := by
  have h := c2_absent_checks_not_applicable hashCE [recNoOptional] 0
    (by decide) (by decide)
  exact ⟨(h.1 rfl).1, h.2.1 rfl, h.2.2.1, h.2.2.2⟩

lemma leaseBefore_iff (a b : QueueTask) :
    leaseBefore a b = true ↔
      (b.priority < a.priority ∨
        (a.priority = b.priority ∧ a.created_at < b.created_at)) := by
  simp [leaseBefore]

lemma leaseBefore_false_iff (a b : QueueTask) :
    leaseBefore a b = false ↔
      (a.priority ≤ b.priority ∧
        (a.priority = b.priority → b.created_at ≤ a.created_at)) := by
  rw [← Bool.not_eq_true, leaseBefore_iff]
  constructor
  · intro h
    constructor
    · omega
    · intro he
      by_contra hlt
      exact h (Or.inr ⟨he, by omega⟩)
  · intro h hcon
    rcases hcon with h1 | ⟨h1, h2⟩
    · omega
    · have := h.2 h1
      omega

lemma leaseBefore_trans {a b c : QueueTask} (hab : leaseBefore a b = true)
    (hbc : leaseBefore b c = true) : leaseBefore a c = true := by
  rw [leaseBefore_iff] at hab hbc ⊢
  rcases hab with h1 | ⟨h1, h2⟩ <;> rcases hbc with h3 | ⟨h3, h4⟩
  · exact Or.inl (by omega)
  · exact Or.inl (by omega)
  · exact Or.inl (by omega)
  · exact Or.inr ⟨by omega, by omega⟩

lemma leaseBefore_false_trans {a b c : QueueTask} (hab : leaseBefore a b = false)
    (hbc : leaseBefore b c = false) : leaseBefore a c = false := by
  rw [leaseBefore_false_iff] at hab hbc ⊢
  constructor
  · omega
  · intro h
    have h1 : a.priority = b.priority := by omega
    have h2 : b.priority = c.priority := by omega
    have := hab.2 h1
    have := hbc.2 h2
    omega

lemma foldBest_mem :
    ∀ (ts : List QueueTask) (a : QueueTask), ts.foldl pickBetter a ∈ a :: ts := by
  intro ts
  induction ts with
  | nil => intro a; simp
  | cons c ts ih =>
    intro a
    simp only [List.foldl_cons]
    rcases List.mem_cons.mp (ih (pickBetter a c)) with h | h
    · rw [h]
      unfold pickBetter
      by_cases hc : leaseBefore c a = true
      · simp [hc]
      · simp [if_neg hc]
    · simp [List.mem_cons.mpr (Or.inr h), List.mem_cons]

lemma foldBest_max :
    ∀ (ts : List QueueTask) (a u : QueueTask), (u = a ∨ u ∈ ts) →
      leaseBefore u (ts.foldl pickBetter a) = false := by
  intro ts
  induction ts with
  | nil =>
    intro a u hu
    rcases hu with h | h
    · subst h
      simp only [List.foldl_nil]
      rw [leaseBefore_false_iff]
      omega
    · simp at h
  | cons c ts ih =>
    intro a u hu
    simp only [List.foldl_cons]
    by_cases hc : leaseBefore c a = true
    · rw [(by simp [pickBetter, hc] : pickBetter a c = c)]
      rcases hu with h | h
      · rw [h]
        cases hb : leaseBefore a (ts.foldl pickBetter c) with
        | false => rfl
        | true =>
          have hcr : leaseBefore c (ts.foldl pickBetter c) = false :=
            ih c c (Or.inl rfl)
          have hct := leaseBefore_trans hc hb
          rw [hct] at hcr
          cases hcr
      · rcases List.mem_cons.mp h with h1 | h1
        · rw [h1]
          exact ih c c (Or.inl rfl)
        · exact ih c u (Or.inr h1)
    · have hca : leaseBefore c a = false := by simpa using hc
      rw [(by simp [pickBetter, hca] : pickBetter a c = a)]
      rcases hu with h | h
      · rw [h]
        exact ih a a (Or.inl rfl)
      · rcases List.mem_cons.mp h with h1 | h1
        · rw [h1]
          exact leaseBefore_false_trans hca (ih a a (Or.inl rfl))
        · exact ih a u (Or.inr h1)

lemma selectBest_mem {l : List QueueTask} {t : QueueTask}
    (h : selectBest l = some t) : t ∈ l := by
  cases l with
  | nil => cases h
  | cons a ts =>
    simp only [selectBest, Option.some.injEq] at h
    subst h
    exact foldBest_mem ts a

lemma selectBest_max {l : List QueueTask} {t : QueueTask}
    (h : selectBest l = some t) : ∀ u ∈ l, leaseBefore u t = false := by
  cases l with
  | nil => cases h
  | cons a ts =>
    simp only [selectBest, Option.some.injEq] at h
    subst h
    intro u hu
    rcases List.mem_cons.mp hu with h1 | h1
    · exact foldBest_max ts a u (Or.inl h1)
    · exact foldBest_max ts a u (Or.inr h1)

lemma lease_fst {store : List QueueTask} {now wid : Nat} {t : QueueTask}
    (h : (lease store now wid).1 = some t) :
    selectBest (store.filter (fun x => x.status == "pending")) = some t := by
  unfold lease at h
  cases hsel : selectBest (store.filter (fun x => x.status == "pending")) with
  | none => rw [hsel] at h; cases h
  | some t2 => rw [hsel] at h; simpa using h

lemma lease_some_pending {store : List QueueTask} {now wid : Nat} {t : QueueTask}
    (h : (lease store now wid).1 = some t) :
    t ∈ store ∧ t.status = "pending" := by
  have hmem := selectBest_mem (lease_fst h)
  have hf := List.mem_filter.mp hmem
  exact ⟨hf.1, by simpa using hf.2⟩

lemma lease_snd {store : List QueueTask} {now wid : Nat} {t : QueueTask}
    (h : (lease store now wid).1 = some t) :
    (lease store now wid).2 = store.map (fun u =>
      if u.id == t.id then
        { u with status := "processing", updated_at := now, worker_id := some wid }
      else u) := by
  unfold lease
  rw [lease_fst h]

/-- Claim C3: the queue claim is one atomic conditional read-modify-write
(`find_one_and_update`), so at most one worker ever holds the lease on a
given task.  Any interleaving of two racing `lease` calls is a sequence of
the two atomic steps; whenever the first call returns a task, the second
call — running on the store the first one produced — can never return a task
with the same id: exactly one of the two workers receives it. -/
theorem c3_lease_atomic_exclusive
    (store : List QueueTask) (now₁ wid₁ : Nat) (t : QueueTask)
    (h : (lease store now₁ wid₁).1 = some t) :
    ∀ (now₂ wid₂ : Nat) (u : QueueTask),
      (lease (lease store now₁ wid₁).2 now₂ wid₂).1 = some u → u.id ≠ t.id := by
  intro now₂ wid₂ u hu hid
  have hu2 := lease_some_pending hu
  rw [lease_snd h] at hu2
  obtain ⟨v, hv, huv⟩ := List.mem_map.mp hu2.1
  by_cases hvid : (v.id == t.id) = true
  · rw [if_pos hvid] at huv
    have hps : u.status = "processing" := by rw [← huv]
    have hpend := hu2.2
    rw [hps] at hpend
    exact absurd hpend (by decide)
  · rw [if_neg hvid] at huv
    have : v.id = t.id := by rw [← huv] at hid; exact hid
    exact hvid (by simp [this])

/-- Witness for claim C3: two workers race on a store holding two pending
tasks; the first lease claims task A, the second claims task B — a different
task, never A again. -/
theorem c3_witness :
    (lease storeTwo 5 1).1 = some taskA ∧
    (lease (lease storeTwo 5 1).2 6 2).1 = some taskB ∧
    taskB.id ≠ taskA.id :=
  ⟨by decide, by decide,
   c3_lease_atomic_exclusive storeTwo 5 1 taskA (by decide) 6 2 taskB (by decide)⟩

/-- Claim C4: `lease` always claims a pending task that has maximal priority
among all pending tasks, with ties broken towards the oldest creation time
(equal priority is FIFO); in particular, with task A (priority 5, created
later) and task B (priority 1, created earlier) both pending, `lease`
returns A first. -/
theorem c4_lease_priority_then_fifo :
    (∀ (store : List QueueTask) (now wid : Nat) (t : QueueTask),
        (lease store now wid).1 = some t →
          t ∈ store ∧ t.status = "pending" ∧
          ∀ u ∈ store, u.status = "pending" →
            u.priority ≤ t.priority ∧
              (u.priority = t.priority → t.created_at ≤ u.created_at)) ∧
    (lease storeTwo 50 1).1 = some taskA := by
  constructor
  · intro store now wid t h
    have hp := lease_some_pending h
    refine ⟨hp.1, hp.2, ?_⟩
    intro u hu hustat
    have hufil : u ∈ store.filter (fun x => x.status == "pending") :=
      List.mem_filter.mpr ⟨hu, by simp [hustat]⟩
    have hmax := selectBest_max (lease_fst h) u hufil
    rw [leaseBefore_false_iff] at hmax
    exact hmax
  · decide

/-- Witness for claim C4: in the concrete two-task store, the leased task A
is pending and dominates the lower-priority, earlier-created task B. -/
theorem c4_witness :
    taskA ∈ storeTwo ∧ taskA.status = "pending" ∧
    taskB.priority ≤ taskA.priority := by
  have h := c4_lease_priority_then_fifo
  have h1 := h.1 storeTwo 50 1 taskA h.2
  exact ⟨h1.1, h1.2.1, (h1.2.2 taskB (by decide) (by decide)).1⟩

lemma update_task_status_mem {store : List QueueTask} {task_id status : String}
    {progress : Nat} {message : String} {now : Nat} {t : QueueTask}
    (ht : t ∈ update_task_status store task_id status progress message now)
    (hid : t.id = task_id) :
    t.status = status ∧ t.progress = progress ∧ t.message = message ∧
      t.updated_at = now := by
  obtain ⟨v, hv, hvt⟩ := List.mem_map.mp ht
  by_cases hvid : (v.id == task_id) = true
  · rw [if_pos hvid] at hvt
    subst hvt
    exact ⟨rfl, rfl, rfl, rfl⟩
  · rw [if_neg hvid] at hvt
    subst hvt
    exact absurd (by simp [hid]) hvid

/-- Claim C6 is false on the code: a process in the `completed` terminal
state accepts a status update — `update_process_status` rewrites it back to
`downloading`, changing the state instead of rejecting the update. -/
theorem c6_counterexample :
    update_process_status procCompleted "downloading" 5 "telechargement" =
      Except.ok { procCompleted with status := "downloading", progress := 5,
                                     current_stage := "telechargement" } ∧
    ({ procCompleted with status := "downloading", progress := 5,
                          current_stage := "telechargement" } : ProcState) ≠
      procCompleted :=
  ⟨rfl, by decide⟩

/-- Claim C6 (amended): only the `cancelled` state is sticky.  In the web
layer, `update_process_status` rejects an update (by raising) exactly when
the current status is `cancelled`; a `completed` or `failed` process accepts
any update, which overwrites its state.  In the worker,
`update_task_status` applies unconditionally, whatever the task's current
status. -/
theorem c6_terminal_states_not_sticky :
    (∀ (p : ProcState) (st : String) (pr : Nat) (sg : String),
        p.status = "cancelled" →
          update_process_status p st pr sg = Except.error cancelledByUserMsg) ∧
    (∀ (p : ProcState) (st : String) (pr : Nat) (sg : String),
        p.status = "completed" ∨ p.status = "failed" →
          update_process_status p st pr sg =
            Except.ok { p with status := st, progress := pr, current_stage := sg }) ∧
    (∀ (store : List QueueTask) (task_id st : String) (pr : Nat) (msg : String)
        (now : Nat) (t : QueueTask),
        t ∈ update_task_status store task_id st pr msg now →
          t.id = task_id → t.status = st ∧ t.progress = pr ∧ t.message = msg) := by
  refine ⟨?_, ?_, ?_⟩
  · intro p st pr sg hp
    unfold update_process_status
    rw [if_pos (by simp [hp])]
  · intro p st pr sg hp
    have hne : ¬((p.status == "cancelled") = true) := by
      rcases hp with h | h <;> simp [h]
    unfold update_process_status
    rw [if_neg hne]
  · intro store task_id st pr msg now t ht hid
    have h := update_task_status_mem ht hid
    exact ⟨h.1, h.2.1, h.2.2.1⟩

/-- Witness for the amended claim C6: a cancelled process rejects the
update, a completed process accepts and is overwritten, and a worker update
on a completed task is applied regardless. -/
theorem c6_witness :
    update_process_status procCancelled "downloading" 5 "x" =
      Except.error cancelledByUserMsg ∧
    update_process_status procCompleted "downloading" 5 "x" =
      Except.ok { procCompleted with status := "downloading", progress := 5,
                                     current_stage := "x" } ∧
    (⟨"T", "processing", 0, 0, 10, "m", 3, none⟩ : QueueTask).status = "processing" :=
  ⟨c6_terminal_states_not_sticky.1 procCancelled "downloading" 5 "x" rfl,
   c6_terminal_states_not_sticky.2.1 procCompleted "downloading" 5 "x" (Or.inl rfl),
   (c6_terminal_states_not_sticky.2.2 [taskDone] "T" "processing" 10 "m" 3
     ⟨"T", "processing", 0, 0, 10, "m", 3, none⟩ (by decide) rfl).1⟩

/-- Claim C5 is false on the code: when the external cancel request lands
mid-editing (before boundary update 3), the pipeline does stop — only the
acquisition, analysis and editing artifacts are recorded — but the final
status is `failed`, not `cancelled`, and the progress is 100, not frozen at
40 (the cancel endpoint itself sets progress to 100, and the cancellation
`ValueError` is absorbed by the generic failure handler).  Moreover a cancel
request on an already-cancelled (terminal) process is still accepted. -/
theorem c5_counterexample :
    (runConversion false (some 3)).1.status = "failed" ∧
    (runConversion false (some 3)).1.status ≠ "cancelled" ∧
    (runConversion false (some 3)).1.progress = 100 ∧
    (runConversion false (some 3)).1.progress ≠ 40 ∧
    (runConversion false (some 3)).2 = ["acquisition", "analysis", "editing"] ∧
    (cancel_conversion procCancelled).isOk = true := by
  refine ⟨by decide, by decide, by decide, by decide, by decide, by decide⟩

/-- Claim C5 (amended): a cancel request is accepted whenever the status is
neither `completed` nor `failed` (including on an already-cancelled
process), and sets status `cancelled`, progress 100 and stage `annulation`.
The cancellation is honored at the next stage boundary: if the request lands
before boundary update `k` of the pipeline (`k ≤ 5`), the in-flight stage
completes, exactly the first `k` stage artifacts are recorded and no later
stage runs — but the boundary's `ValueError` is caught by the generic
handler, which leaves the process `failed` with the cancellation message as
error, progress 100 and stage `erreur` (the progress is not frozen at the
last stage's value). -/
theorem c5_cancel_cooperative_but_failed
    (publish : Bool) (k : Nat) (hk : k ≤ 5) :
    (∀ p : ProcState, p.status ≠ "completed" → p.status ≠ "failed" →
        cancel_conversion p =
          Except.ok { p with status := "cancelled", progress := 100,
                             current_stage := "annulation" }) ∧
    (runConversion publish (some k)).1 =
      { status := "failed", progress := 100, current_stage := "erreur",
        error := some cancelledByUserMsg } ∧
    (runConversion publish (some k)).2 =
      ["acquisition", "analysis", "editing", "adaptation", "optimization"].take k := by
  refine ⟨?_, ?_, ?_⟩
  · intro p h1 h2
    have hne : ¬((p.status == "completed" || p.status == "failed") = true) := by
      simp [h1, h2]
    unfold cancel_conversion
    rw [if_neg hne]
  · interval_cases k <;> cases publish <;> decide
  · interval_cases k <;> cases publish <;> decide

/-- Witness for the amended claim C5: cancelling a process that is
mid-editing is accepted, and with the cancel landing before boundary 3 the
run records exactly the first three artifacts and ends `failed` with
progress 100. -/
theorem c5_witness :
    cancel_conversion
        { status := "editing", progress := 40,
          current_stage := "Montage de la vid\xe9o", error := none } =
      Except.ok { status := "cancelled", progress := 100,
                  current_stage := "annulation", error := none } ∧
    (runConversion false (some 3)).1 =
      { status := "failed", progress := 100, current_stage := "erreur",
        error := some cancelledByUserMsg } ∧
    (runConversion false (some 3)).2 = ["acquisition", "analysis", "editing"] :=
  ⟨(c5_cancel_cooperative_but_failed false 3 (by decide)).1
      { status := "editing", progress := 40,
        current_stage := "Montage de la vid\xe9o", error := none }
      (by decide) (by decide),
   (c5_cancel_cooperative_but_failed false 3 (by decide)).2.1,
   (c5_cancel_cooperative_but_failed false 3 (by decide)).2.2⟩

/-- Claim C7: a raising stage collaborator (here: the analysis stage) is
fatal to the task only.  The worker's handler constructs an audit logger for
the process and records the error — the persisted audit document's status
becomes `error` with the message attached — the task is set to `failed` with
the error message, no later stage runs (only the acquisition artifact was
recorded), and `process_task` returns normally so the worker loop goes back
to polling. -/
theorem c7_stage_failure_fatal_to_task_only
    (publish : Bool) (failMsg : String) (store : List QueueTask)
    (task_id url : String) (now : Nat) :
    (process_task publish (some "analysis") failMsg store task_id url now).audit.status
        = "error" ∧
    (process_task publish (some "analysis") failMsg store task_id url now).audit.error
        = some failMsg ∧
    (process_task publish (some "analysis") failMsg store task_id url now).artifacts
        = ["acquisition"] ∧
    ∀ t ∈ (process_task publish (some "analysis") failMsg store task_id url now).store,
      t.id = task_id →
        t.status = "failed" ∧ t.progress = 100 ∧
          t.message = String.append "Erreur: " failMsg := by
  cases publish <;>
    exact ⟨rfl, rfl, rfl, fun t ht hid =>
      ⟨(update_task_status_mem ht hid).1, (update_task_status_mem ht hid).2.1,
       (update_task_status_mem ht hid).2.2.1⟩⟩

/-- Witness for claim C7 at a concrete store containing the leased task. -/
theorem c7_witness :
    (process_task false (some "analysis") "boom" [taskP] "T" "u" 7).audit.status
        = "error" ∧
    (process_task false (some "analysis") "boom" [taskP] "T" "u" 7).artifacts
        = ["acquisition"] ∧
    (⟨"T", "failed", 0, 0, 100, "Erreur: boom", 7, none⟩ : QueueTask).status
        = "failed" :=
  ⟨(c7_stage_failure_fatal_to_task_only false "boom" [taskP] "T" "u" 7).1,
   (c7_stage_failure_fatal_to_task_only false "boom" [taskP] "T" "u" 7).2.2.1,
   ((c7_stage_failure_fatal_to_task_only false "boom" [taskP] "T" "u" 7).2.2.2
     ⟨"T", "failed", 0, 0, 100, "Erreur: boom", 7, none⟩ (by decide) rfl).1⟩

/-- Claim C8 is contradicted by the code: events are appended and never
edited within one `AuditLogger` handle, but constructing a new handle for
the same process — exactly what the worker's exception handler does —
replaces the persisted audit document with a fresh one whose `events` list
is empty, removing every previously appended event; the subsequent
`log_error` leaves only the error event in the persisted document. -/
theorem c8_reinit_wipes_audit_events :
    (log_start (auditLoggerInit none) "url").events.length = 1 ∧
    (auditLoggerInit (some (log_start (auditLoggerInit none) "url"))).events = [] ∧
    (log_error (auditLoggerInit (some (log_start (auditLoggerInit none) "url")))
        "boom").events = [⟨"error", "boom"⟩] :=
  ⟨rfl, rfl, rfl⟩

/-- Claim C9: verifying a freshly created signature with the same data and
key always succeeds, for every keyed digest, serializer, value and key; and
verification fails exactly when the supplied signature differs from the
keyed digest of the serialized data — so mutating the signature always
fails, and mutating the value or the key fails whenever it changes the
digest (the collision-freeness of HMAC-SHA256 itself is a cryptographic
assumption outside the model). -/
theorem c9_signature_roundtrip_and_mismatch :
    (∀ (hmacSha256 : String → String → String) (dumps : JsonValue → String)
        (v : JsonValue) (k : String),
        verify_integrity_signature hmacSha256 dumps v
          (create_integrity_signature hmacSha256 dumps v k) k = true) ∧
    (∀ (hmacSha256 : String → String → String) (dumps : JsonValue → String)
        (v : JsonValue) (sig k : String),
        hmacSha256 k (dumps v) ≠ sig →
          verify_integrity_signature hmacSha256 dumps v sig k = false) := by
  constructor
  · intro hm dumps v k
    simp [verify_integrity_signature, create_integrity_signature]
  · intro hm dumps v sig k hne
    simpa [verify_integrity_signature, create_integrity_signature] using hne

/-- Witness for claim C9 with a concrete keyed digest, serializer, value,
key and a forged signature. -/
theorem c9_witness :
    verify_integrity_signature hmacW dumpsW JsonValue.null
      (create_integrity_signature hmacW dumpsW JsonValue.null "key") "key" = true ∧
    hmacW "key" (dumpsW JsonValue.null) ≠ "forged" ∧
    verify_integrity_signature hmacW dumpsW JsonValue.null "forged" "key" = false :=
  ⟨c9_signature_roundtrip_and_mismatch.1 hmacW dumpsW JsonValue.null "key",
   by decide,
   c9_signature_roundtrip_and_mismatch.2 hmacW dumpsW JsonValue.null "forged" "key"
     (by decide)⟩
